import Mathlib

/-!
Shallow embedding of the silver-layer cleaning stages of the
YouTube-trending ETL pipeline
(`src/etl_pipeline/etl_pipeline/assets/silver.py`).

Datasets are embedded as lists of records; a tabular cell that may hold a
string, an integer, or a null is the inductive `Cell`.  The three assets
`silver_videoCategory_cleaned`, `silver_linkVideos_cleaned` and
`silver_trending_cleaned` are embedded as pure functions on those lists;
the Spark/polars conversions (`createDataFrame`, `toPandas`,
`pl.DataFrame`) are value-preserving and are embedded as the identity.
A stage that can raise is embedded as `Except String`.
-/

namespace ETL

/-- A tabular cell: null, an integer, or a string. -/
inductive Cell where
  | null : Cell
  | int : Int → Cell
  | str : String → Cell
deriving DecidableEq

/-- A timestamp value (the payload of a Spark `TimestampType` /
polars `Datetime` cell), split into calendar fields. -/
structure Date where
  year : Nat
  month : Nat
  day : Nat
  hour : Nat
  minute : Nat
  second : Nat
deriving DecidableEq

/-- The decimal digit character for `d` (defined for `d < 10`, `'9'` beyond). -/
def digitChar (d : Nat) : Char :=
  match d with
  | 0 => '0'
  | 1 => '1'
  | 2 => '2'
  | 3 => '3'
  | 4 => '4'
  | 5 => '5'
  | 6 => '6'
  | 7 => '7'
  | 8 => '8'
  | _ => '9'

/-- Fuel-driven decimal digit expansion, most significant first.
Any fuel above the value itself is sufficient. -/
def natCharsAux : Nat → Nat → List Char
  | 0, _ => []
  | fuel + 1, n =>
    if n < 10 then [digitChar n]
    else natCharsAux fuel (n / 10) ++ [digitChar (n % 10)]

/-- Decimal digit characters of `n`, most significant first. -/
def natChars (n : Nat) : List Char :=
  natCharsAux (n + 1) n

/-- Left-pad a character list with `'0'` to width `w`. -/
def pad (w : Nat) (l : List Char) : List Char :=
  List.replicate (w - l.length) '0' ++ l

/-- Accumulate a decimal digit character list into a natural number. -/
def foldDigits (l : List Char) : Nat :=
  l.foldl (fun a c => a * 10 + (c.toNat - 48)) 0

/-- Parse a non-empty all-digit character list as a natural number. -/
def parseNum (l : List Char) : Option Nat :=
  if l ≠ [] ∧ l.all Char.isDigit then some (foldDigits l) else none

/-- Drop space characters from both ends. -/
def stripSpaces (l : List Char) : List Char :=
  ((l.dropWhile (fun c => c == ' ')).reverse.dropWhile (fun c => c == ' ')).reverse

/-- Python's `int()` applied to a string (as a character list): surrounding
spaces are stripped, an optional single sign is allowed, the rest must be
non-empty decimal digits; otherwise a `ValueError` is raised (here: `none`). -/
def pyInt (l : List Char) : Option Int :=
  match stripSpaces l with
  | '+' :: rest => (parseNum rest).map (fun n => (n : Int))
  | '-' :: rest => (parseNum rest).map (fun n => -(n : Int))
  | t => (parseNum t).map (fun n => (n : Int))

/-- Spark's string-to-`IntegerType` conversion: trimmed optional-sign decimal
digits that fit a signed 32-bit integer; anything else yields null (`none`). -/
def sparkToInt (s : String) : Option Int :=
  match pyInt s.toList with
  | some v => if -2147483648 ≤ v ∧ v ≤ 2147483647 then some v else none
  | none => none

/-- Spark's `cast(IntegerType())` on a cell: strings are parsed
(`null` on failure), integers and nulls pass through. -/
def castInt (c : Cell) : Cell :=
  match c with
  | Cell.str s =>
    match sparkToInt s with
    | some v => Cell.int v
    | none => Cell.null
  | Cell.int n => Cell.int n
  | Cell.null => Cell.null

/-- A cell that is an integer or null (never a residual string). -/
def Cell.intOrNull : Cell → Bool
  | Cell.str _ => false
  | _ => true

/-- Walk the list keeping each row whose key was not seen before. -/
def dedupByKeyAux {α : Type} (key : α → String) : List String → List α → List α
  | _, [] => []
  | seen, x :: rest =>
    if seen.contains (key x) then dedupByKeyAux key seen rest
    else x :: dedupByKeyAux key (key x :: seen) rest

/-- Deduplicate a list by a string key, keeping the first-seen row per key
(the embedding of Spark `dropDuplicates(["video_id"])`). -/
def dedupByKey {α : Type} (key : α → String) (l : List α) : List α :=
  dedupByKeyAux key [] l

instance {ε α : Type} [DecidableEq ε] [DecidableEq α] :
    DecidableEq (Except ε α) := fun a b =>
  match a, b with
  | Except.error e, Except.error f =>
    if h : e = f then Decidable.isTrue (by rw [h])
    else Decidable.isFalse (by simp [h])
  | Except.error _, Except.ok _ => Decidable.isFalse (by simp)
  | Except.ok _, Except.error _ => Decidable.isFalse (by simp)
  | Except.ok x, Except.ok y =>
    if h : x = y then Decidable.isTrue (by rw [h])
    else Decidable.isFalse (by simp [h])

/-- Replace `'T'` by a space (the character-level step of the raw-date
canonicalization). -/
def trChar (c : Char) : Char := if c = 'T' then ' ' else c

/-- Character-level body of `format_date`: replace every `'T'` by a space and
drop every `'Z'`. -/
def formatDateChars (l : List Char) : List Char :=
  (l.map trChar).filter (fun c => c != 'Z')

/-- Modelled from the spec: the repository's `func_process.format_date`
(not under `src/`) reformats a raw date string of the shape
`YYYY-MM-DDTHH:MM:SSZ` into the canonical `YYYY-MM-DD HH:MM:SS` form by
replacing the `'T'` separator with a space and dropping the trailing `'Z'`. -/
def format_date (s : String) : String :=
  String.mk (formatDateChars s.toList)

/-- The default-resolution thumbnail suffix token. -/
def defaultPat : List Char :=
  ['d', 'e', 'f', 'a', 'u', 'l', 't', '.', 'j', 'p', 'g']

/-- The max-resolution thumbnail suffix token. -/
def maxresPat : List Char :=
  ['m', 'a', 'x', 'r', 'e', 's', 'd', 'e', 'f', 'a', 'u', 'l', 't', '.', 'j', 'p', 'g']

/-- Replace every (left-to-right, non-overlapping) occurrence of `pat` by
`repl`, scanning left to right; replacement text is not rescanned (the
semantics of Python `str.replace`).  Any fuel at least the list length is
sufficient. -/
def replaceAll (pat repl : List Char) : Nat → List Char → List Char
  | 0, l => l
  | fuel + 1, l =>
    match l with
    | [] => []
    | c :: rest =>
      if pat.isPrefixOf (c :: rest) then
        repl ++ replaceAll pat repl fuel (List.drop pat.length (c :: rest))
      else c :: replaceAll pat repl fuel rest

/-- Replace every occurrence of `default.jpg` by `maxresdefault.jpg`. -/
def replaceDefault (l : List Char) : List Char :=
  replaceAll defaultPat maxresPat l.length l

/-- Modelled from the spec: the repository's `func_process.replace_str`
(not under `src/`) rewrites a thumbnail link by replacing the
default-resolution suffix token `default.jpg` with the max-resolution token
`maxresdefault.jpg` wherever it appears. -/
def replace_str (s : String) : String :=
  String.mk (replaceDefault s.toList)

/-- Whether `pat` occurs as a contiguous substring of `l`. -/
def hasSub (pat : List Char) : List Char → Bool
  | [] => pat.isEmpty
  | c :: rest => pat.isPrefixOf (c :: rest) || hasSub pat rest

/-- Split at the first occurrence of `ch`: the characters before it and the
characters after it (the separator is consumed). -/
def breakAt (ch : Char) (l : List Char) : List Char × List Char :=
  (l.takeWhile (fun c => c != ch), (l.dropWhile (fun c => c != ch)).drop 1)

/-- Parse a canonical `YYYY-MM-DD HH:MM:SS` character list as a timestamp
(the embedding of Spark `to_timestamp` on the canonical string format). -/
def parseTimestampChars (l : List Char) : Option Date :=
  let p1 := breakAt '-' l
  let p2 := breakAt '-' p1.2
  let p3 := breakAt ' ' p2.2
  let p4 := breakAt ':' p3.2
  let p5 := breakAt ':' p4.2
  match parseNum p1.1, parseNum p2.1, parseNum p3.1,
        parseNum p4.1, parseNum p5.1, parseNum p5.2 with
  | some y, some mo, some da, some h, some mi, some se =>
      some ⟨y, mo, da, h, mi, se⟩
  | _, _, _, _, _, _ => none

/-- Spark `to_timestamp` on a string, for the canonical date-time format. -/
def parseTimestamp (s : String) : Option Date :=
  parseTimestampChars s.toList

/-- The raw string date representation of a timestamp:
`YYYY-MM-DDTHH:MM:SSZ` (zero-padded fields). -/
def renderRawChars (d : Date) : List Char :=
  pad 4 (natChars d.year) ++ '-' :: pad 2 (natChars d.month) ++
    '-' :: pad 2 (natChars d.day) ++ 'T' :: pad 2 (natChars d.hour) ++
    ':' :: pad 2 (natChars d.minute) ++ ':' :: pad 2 (natChars d.second) ++ ['Z']

/-- The raw string date representation of a timestamp, as a string. -/
def renderRawTimestamp (d : Date) : String :=
  String.mk (renderRawChars d)

/-- A partition key string of the form `YYYY-MM`
(4-digit year, hyphen, 2-digit month). -/
def renderKey (y m : Nat) : String :=
  String.mk (pad 4 (natChars y) ++ '-' :: pad 2 (natChars m))

/-- A key string of the form `YYYY-MM`: exactly four digits, a hyphen, and
exactly two digits (the spec's partition-key format). -/
def isYearMonthKey (s : String) : Bool :=
  match s.toList with
  | [a, b, c, d, h, e, f] =>
      a.isDigit && b.isDigit && c.isDigit && d.isDigit &&
        (h == '-') && e.isDigit && f.isDigit
  | _ => false

/-- A row of the bronze link-mapping dataset `bronze_linkVideos_trending`. -/
structure LinkRow where
  videoId : String
  link_video : Option String
deriving DecidableEq

/-- A row of an upstream silver trending dataset
(`silver_youtube_trending_01` / `_02`): `publishedAt` is already a
timestamp (the stage filters it with `.dt.year()`), `trending_date` is
still a raw string, the numeric columns are raw cells. -/
structure TrendingRowIn where
  video_id : String
  publishedAt : Date
  trending_date : Option String
  categoryId : Cell
  view_count : Cell
  likes : Cell
  dislikes : Cell
  comment_count : Cell
  thumbnail_link : Option String
deriving DecidableEq

/-- A row of the cleaned trending dataset `silver_trending_cleaned`. -/
structure TrendingRowOut where
  video_id : String
  publishedAt : Date
  trending_date : Option Date
  categoryId : Cell
  view_count : Cell
  likes : Cell
  dislikes : Cell
  comment_count : Cell
  thumbnail_link : Option String
deriving DecidableEq

/-- A row of the reconciled link dataset: the projection
`select(trending.video_id, linkVideos.link_video)` of the outer join, so
`video_id` is null on rows coming only from the link-mapping side. -/
structure LinkOutRow where
  video_id : Option String
  link_video : Option String
deriving DecidableEq

/-- A row of the category dataset: the `categoryId` column plus the other
passthrough columns. -/
structure CategoryRow where
  categoryId : Cell
  rest : List Cell
deriving DecidableEq

/-- Full outer join of the link-mapping rows against the trending rows on
`linkVideos["videoId"] == trending["video_id"]`, projected to
`(trending.video_id, linkVideos.link_video)`: every matched pair,
every unmatched link row (null `video_id`), every unmatched trending row
(null `link_video`). -/
def outerJoinSelect (ls : List LinkRow) (ts : List TrendingRowIn) : List LinkOutRow :=
  (ls.flatMap (fun l =>
    let ms := ts.filter (fun t => t.video_id == l.videoId)
    if ms.isEmpty then [⟨none, l.link_video⟩]
    else ms.map (fun t => ⟨some t.video_id, l.link_video⟩)))
  ++ ((ts.filter (fun t => ls.all (fun l => l.videoId != t.video_id))).map
      (fun t => ⟨some t.video_id, none⟩))

/-- The `silver_linkVideos_cleaned` asset: deduplicate the first trending
dataset by `video_id`, outer-join the link-mapping dataset against it, and
project `(video_id, link_video)`.  The second trending dataset is an input
of the asset but is not used by the active code path. -/
def silver_linkVideos_cleaned (ls : List LinkRow)
    (t1 _t2 : List TrendingRowIn) : List LinkOutRow :=
  outerJoinSelect ls (dedupByKey TrendingRowIn.video_id t1)

/-- Cast the `categoryId` column of a category row to integer. -/
def castCategoryRow (r : CategoryRow) : CategoryRow :=
  { r with categoryId := castInt r.categoryId }

/-- The sort key of a category row: its integer `categoryId`, with null
ordered first (Spark ascending order puts nulls first). -/
def catKey (r : CategoryRow) : WithBot Int :=
  match r.categoryId with
  | Cell.int n => (n : WithBot Int)
  | _ => ⊥

/-- The ordering used by `orderBy(spark_df["categoryId"])`. -/
def catLe (a b : CategoryRow) : Prop := catKey a ≤ catKey b

instance : DecidableRel catLe := fun a b =>
  inferInstanceAs (Decidable (catKey a ≤ catKey b))

instance : IsTotal CategoryRow catLe :=
  ⟨fun a b => le_total (catKey a) (catKey b)⟩

instance : IsTrans CategoryRow catLe :=
  ⟨fun _ _ _ h1 h2 => le_trans h1 h2⟩

/-- The `silver_videoCategory_cleaned` asset: cast `categoryId` to integer,
then sort ascending by `categoryId`.  The active code path never raises. -/
def silver_videoCategory_cleaned (rows : List CategoryRow) :
    Except String (List CategoryRow) :=
  Except.ok (List.insertionSort catLe (rows.map castCategoryRow))

/-- The per-row transformation sequence of `silver_trending_cleaned`:
`to_timestamp` on `publishedAt` (already a timestamp: identity), the five
integer casts, the `format_date` reformat followed by `to_timestamp` on
`trending_date`, and the `replace_str` rewrite of `thumbnail_link`
(a null cell stays null through the string functions). -/
def stepRow (r : TrendingRowIn) : TrendingRowOut where
  video_id := r.video_id
  publishedAt := r.publishedAt
  trending_date := (r.trending_date.map format_date).bind parseTimestamp
  categoryId := castInt r.categoryId
  view_count := castInt r.view_count
  likes := castInt r.likes
  dislikes := castInt r.dislikes
  comment_count := castInt r.comment_count
  thumbnail_link := r.thumbnail_link.map replace_str

/-- The `ValueError` message of Python `int()` on a bad literal. -/
def intErrMsg (l : List Char) : String :=
  "invalid literal for int() with base 10: " ++ String.mk l

/-- The error message when no partition key was supplied to the stage. -/
def noKeyMsg : String :=
  "asset_partition_key_for_output: no partition key for this output"

/-- The time-window predicate of the stage:
`(publishedAt.year == int(key[:4])) & (publishedAt.month == int(key[5:7]))`. -/
def keptRow (y m : Int) (r : TrendingRowIn) : Bool :=
  ((r.publishedAt.year : Int) == y) && ((r.publishedAt.month : Int) == m)

/-- The `silver_trending_cleaned` asset: concatenate the two trending
datasets, read the partition key (failure if absent), parse its year
(`int(key[:4])`) and month (`int(key[5:7])`) — a parse failure is re-raised
with the original reason — filter rows whose `publishedAt` matches the
window, then apply the per-row transformation sequence. -/
def silver_trending_cleaned (key? : Option String)
    (t1 t2 : List TrendingRowIn) : Except String (List TrendingRowOut) :=
  match key? with
  | none => Except.error noKeyMsg
  | some key =>
    match pyInt (key.toList.take 4) with
    | none => Except.error (intErrMsg (key.toList.take 4))
    | some y =>
      match pyInt ((key.toList.drop 5).take 2) with
      | none => Except.error (intErrMsg ((key.toList.drop 5).take 2))
      | some m =>
        Except.ok (((t1 ++ t2).filter (keptRow y m)).map stepRow)

/-! ### Digit rendering and parsing lemmas -/

lemma digitChar_isDigit (d : Nat) : (digitChar d).isDigit = true := by
  unfold digitChar
  split <;> decide

lemma digitChar_toNat (d : Nat) (h : d < 10) : (digitChar d).toNat - 48 = d := by
  interval_cases d <;> decide

lemma natCharsAux_fuel : ∀ f1 f2 n, n < f1 → n < f2 →
    natCharsAux f1 n = natCharsAux f2 n := by
  intro f1
  induction f1 with
  | zero => omega
  | succ f ih =>
    intro f2 n h1 h2
    match f2, h2 with
    | f2 + 1, h2 =>
      simp only [natCharsAux]
      by_cases h10 : n < 10
      · simp [h10]
      · have hdiv : n / 10 < n := Nat.div_lt_self (by omega) (by omega)
        simp only [h10, if_false]
        rw [ih f2 (n / 10) (by omega) (by omega)]

lemma natChars_eq (n : Nat) : natChars n =
    if n < 10 then [digitChar n]
    else natChars (n / 10) ++ [digitChar (n % 10)] := by
  unfold natChars
  rw [show natCharsAux (n + 1) n =
      (if n < 10 then [digitChar n]
       else natCharsAux n (n / 10) ++ [digitChar (n % 10)]) from rfl]
  by_cases h10 : n < 10
  · simp [h10]
  · have hdiv : n / 10 < n := Nat.div_lt_self (by omega) (by omega)
    simp only [h10, if_false]
    rw [natCharsAux_fuel n (n / 10 + 1) (n / 10) (by omega) (by omega)]

lemma natChars_ne_nil (n : Nat) : natChars n ≠ [] := by
  rw [natChars_eq]
  by_cases h10 : n < 10 <;> simp [h10]

lemma natChars_all_digit (n : Nat) : ∀ c ∈ natChars n, c.isDigit = true := by
  induction n using Nat.strong_induction_on with
  | _ n ih =>
    rw [natChars_eq]
    by_cases h10 : n < 10
    · simp only [h10, if_true, List.mem_singleton]
      rintro c rfl
      exact digitChar_isDigit n
    · have hdiv : n / 10 < n := Nat.div_lt_self (by omega) (by omega)
      simp only [h10, if_false, List.mem_append, List.mem_singleton]
      rintro c (hc | rfl)
      · exact ih (n / 10) hdiv c hc
      · exact digitChar_isDigit (n % 10)

lemma foldDigits_step (acc : Nat) (c : Char) :
    (fun a c => a * 10 + (c.toNat - 48)) acc c = acc * 10 + (c.toNat - 48) := rfl

lemma natChars_foldl (n : Nat) : ∀ acc : Nat,
    (natChars n).foldl (fun a c => a * 10 + (c.toNat - 48)) acc =
      acc * 10 ^ (natChars n).length + n := by
  induction n using Nat.strong_induction_on with
  | _ n ih =>
    intro acc
    rw [natChars_eq]
    by_cases h10 : n < 10
    · simp only [h10, if_true, List.foldl_cons, List.foldl_nil, List.length_cons,
        List.length_nil, pow_one, zero_add]
      rw [digitChar_toNat n h10]
    · have hdiv : n / 10 < n := Nat.div_lt_self (by omega) (by omega)
      simp only [h10, if_false, List.foldl_append, List.foldl_cons, List.foldl_nil,
        List.length_append, List.length_cons, List.length_nil, zero_add]
      rw [ih (n / 10) hdiv acc, digitChar_toNat (n % 10) (Nat.mod_lt _ (by omega)),
        pow_succ, ← mul_assoc]
      have hmod := Nat.div_add_mod n 10
      generalize acc * 10 ^ (natChars (n / 10)).length = X
      omega

lemma natChars_length_le (n k : Nat) (hk : 0 < k) (h : n < 10 ^ k) :
    (natChars n).length ≤ k := by
  induction n using Nat.strong_induction_on generalizing k with
  | _ n ih =>
    rw [natChars_eq]
    by_cases h10 : n < 10
    · simp only [h10, if_true, List.length_singleton]
      omega
    · have hdiv : n / 10 < n := Nat.div_lt_self (by omega) (by omega)
      have hk2 : 2 ≤ k := by
        by_contra hcon
        have : k = 1 := by omega
        subst this
        simp at h
        omega
      simp only [h10, if_false, List.length_append, List.length_cons, List.length_nil]
      have hlt : n / 10 < 10 ^ (k - 1) := by
        rw [Nat.div_lt_iff_lt_mul (by omega)]
        calc n < 10 ^ k := h
        _ = 10 ^ (k - 1) * 10 := by
            rw [← pow_succ]
            congr 1
            omega
      have := ih (n / 10) hdiv (k - 1) (by omega) hlt
      omega

lemma pad_all_digit (w : Nat) (l : List Char) (h : ∀ c ∈ l, c.isDigit = true) :
    ∀ c ∈ pad w l, c.isDigit = true := by
  intro c hc
  rcases List.mem_append.mp hc with hc | hc
  · rw [List.eq_of_mem_replicate hc]
    decide
  · exact h c hc

lemma pad_ne_nil (w : Nat) (l : List Char) (h : l ≠ []) : pad w l ≠ [] := by
  unfold pad
  intro hcon
  rcases List.append_eq_nil.mp hcon with ⟨_, h2⟩
  exact h h2

lemma pad_length (w : Nat) (l : List Char) (h : l.length ≤ w) :
    (pad w l).length = w := by
  unfold pad
  simp only [List.length_append, List.length_replicate]
  omega

lemma foldl_replicate_zero (k : Nat) :
    (List.replicate k '0').foldl (fun a c => a * 10 + (c.toNat - 48)) 0 = 0 := by
  induction k with
  | zero => rfl
  | succ k ih =>
    rw [List.replicate_succ, List.foldl_cons]
    simpa using ih

lemma foldDigits_pad_natChars (w n : Nat) :
    foldDigits (pad w (natChars n)) = n := by
  unfold foldDigits pad
  rw [List.foldl_append, foldl_replicate_zero, natChars_foldl]
  simp

lemma parseNum_pad_natChars (w n : Nat) :
    parseNum (pad w (natChars n)) = some n := by
  unfold parseNum
  rw [if_pos]
  · rw [foldDigits_pad_natChars]
  · refine ⟨pad_ne_nil w _ (natChars_ne_nil n), ?_⟩
    rw [List.all_eq_true]
    exact pad_all_digit w _ (natChars_all_digit n)

/-! ### Python `int()` on rendered numbers -/

lemma dropWhile_eq_self_of (p : Char → Bool) (l : List Char)
    (h : ∀ c ∈ l, p c = false) : l.dropWhile p = l := by
  cases l with
  | nil => rfl
  | cons c t =>
    rw [List.dropWhile_cons, h c (List.mem_cons_self c t)]
    simp

lemma isDigit_ne_space {c : Char} (h : c.isDigit = true) : (c == ' ') = false := by
  rcases hc : c == ' ' with _ | _
  · rfl
  · rw [eq_of_beq hc] at h
    exact absurd h (by decide)

lemma stripSpaces_of_digits (l : List Char) (h : ∀ c ∈ l, c.isDigit = true) :
    stripSpaces l = l := by
  unfold stripSpaces
  rw [dropWhile_eq_self_of _ l (fun c hc => isDigit_ne_space (h c hc)),
    dropWhile_eq_self_of _ l.reverse
      (fun c hc => isDigit_ne_space (h c (List.mem_reverse.mp hc))),
    List.reverse_reverse]

lemma parseNum_of_digits (l : List Char) (h1 : l ≠ [])
    (h2 : ∀ c ∈ l, c.isDigit = true) : parseNum l = some (foldDigits l) := by
  unfold parseNum
  rw [if_pos ⟨h1, List.all_eq_true.mpr h2⟩]

lemma pyInt_of_digits (l : List Char) (h1 : l ≠ [])
    (h2 : ∀ c ∈ l, c.isDigit = true) :
    pyInt l = some ((foldDigits l : Nat) : Int) := by
  have hs : stripSpaces l = l := stripSpaces_of_digits l h2
  unfold pyInt
  rw [hs]
  split
  · have := h2 '+' (List.mem_cons_self _ _)
    exact absurd this (by decide)
  · have := h2 '-' (List.mem_cons_self _ _)
    exact absurd this (by decide)
  · rw [parseNum_of_digits l h1 h2]
    rfl

lemma pyInt_pad_natChars (w n : Nat) :
    pyInt (pad w (natChars n)) = some (n : Int) := by
  rw [pyInt_of_digits _ (pad_ne_nil w _ (natChars_ne_nil n))
    (pad_all_digit w _ (natChars_all_digit n)), foldDigits_pad_natChars]

/-! ### Slicing the partition key -/

lemma toList_renderKey (y m : Nat) :
    (renderKey y m).toList = pad 4 (natChars y) ++ '-' :: pad 2 (natChars m) := rfl

lemma pad_length_eq (w k n : Nat) (hk : 0 < k) (h : n < 10 ^ k) (hw : k ≤ w) :
    (pad w (natChars n)).length = w :=
  pad_length w _ (le_trans (natChars_length_le n k hk h) hw)

lemma take4_renderKey (y m : Nat) (hy : y < 10000) :
    (renderKey y m).toList.take 4 = pad 4 (natChars y) := by
  rw [toList_renderKey]
  have h := List.take_left (pad 4 (natChars y)) ('-' :: pad 2 (natChars m))
  rwa [pad_length_eq 4 4 y (by omega) hy (by omega)] at h

lemma slice57_renderKey (y m : Nat) (hy : y < 10000) (hm : m < 100) :
    ((renderKey y m).toList.drop 5).take 2 = pad 2 (natChars m) := by
  rw [toList_renderKey]
  have h4 : (pad 4 (natChars y)).length = 4 := pad_length_eq 4 4 y (by omega) hy (by omega)
  have h2 : (pad 2 (natChars m)).length = 2 := pad_length_eq 2 2 m (by omega) hm (by omega)
  have hsplit : pad 4 (natChars y) ++ '-' :: pad 2 (natChars m) =
      (pad 4 (natChars y) ++ ['-']) ++ pad 2 (natChars m) := by
    simp
  rw [hsplit]
  have hd := List.drop_left (pad 4 (natChars y) ++ ['-']) (pad 2 (natChars m))
  have hlen5 : (pad 4 (natChars y) ++ ['-']).length = 5 := by simp [h4]
  rw [hlen5] at hd
  rw [hd]
  have ht := List.take_length (l := pad 2 (natChars m))
  rwa [h2] at ht

/-! ### Claim C2: the time-window filter -/

lemma silver_trending_cleaned_some (key : String) (t1 t2 : List TrendingRowIn) :
    silver_trending_cleaned (some key) t1 t2 =
      (match pyInt (key.toList.take 4) with
       | none => Except.error (intErrMsg (key.toList.take 4))
       | some y =>
         match pyInt ((key.toList.drop 5).take 2) with
         | none => Except.error (intErrMsg ((key.toList.drop 5).take 2))
         | some m =>
           Except.ok (((t1 ++ t2).filter (keptRow y m)).map stepRow)) := rfl

lemma silver_trending_cleaned_renderKey (y m : Nat) (t1 t2 : List TrendingRowIn)
    (hy : y < 10000) (hm : m < 100) :
    silver_trending_cleaned (some (renderKey y m)) t1 t2 =
      Except.ok (((t1 ++ t2).filter (keptRow (y : Int) (m : Int))).map stepRow) := by
  rw [silver_trending_cleaned_some, take4_renderKey y m hy, pyInt_pad_natChars,
    slice57_renderKey y m hy hm, pyInt_pad_natChars]

lemma keptRow_iff (y m : Nat) (r : TrendingRowIn) :
    keptRow (y : Int) (m : Int) r = true ↔
      r.publishedAt.year = y ∧ r.publishedAt.month = m := by
  unfold keptRow
  rw [Bool.and_eq_true, beq_iff_eq, beq_iff_eq]
  constructor
  · rintro ⟨h1, h2⟩
    exact ⟨by exact_mod_cast h1, by exact_mod_cast h2⟩
  · rintro ⟨h1, h2⟩
    exact ⟨by exact_mod_cast h1, by exact_mod_cast h2⟩

/-- Claim C2: for every pair of trending input datasets and every partition
key of the form `YYYY-MM` (4-digit year `y`, 2-digit month `m`), the
Trending Normalizer keeps a row of the concatenated input iff its
`publishedAt` year is `y` and its month is `m`, and every output row's
`publishedAt` has year `y` and month `m`. -/
theorem c2_time_window_filter (y m : Nat) (t1 t2 : List TrendingRowIn)
    (hy : y < 10000) (hm : m < 100) :
    silver_trending_cleaned (some (renderKey y m)) t1 t2 =
      Except.ok (((t1 ++ t2).filter (keptRow (y : Int) (m : Int))).map stepRow) ∧
    (∀ r : TrendingRowIn, r ∈ (t1 ++ t2).filter (keptRow (y : Int) (m : Int)) ↔
      r ∈ t1 ++ t2 ∧ r.publishedAt.year = y ∧ r.publishedAt.month = m) ∧
    (∀ row ∈ ((t1 ++ t2).filter (keptRow (y : Int) (m : Int))).map stepRow,
      row.publishedAt.year = y ∧ row.publishedAt.month = m) := by
  refine ⟨silver_trending_cleaned_renderKey y m t1 t2 hy hm, ?_, ?_⟩
  · intro r
    rw [List.mem_filter, keptRow_iff]
  · intro row hrow
    rcases List.mem_map.mp hrow with ⟨r, hr, rfl⟩
    have hk := (List.mem_filter.mp hr).2
    have := (keptRow_iff y m r).mp hk
    exact ⟨this.1, this.2⟩

/-- Witness for C2 at the key `"2021-08"` and a two-row input. -/
theorem c2_time_window_filter_witness :
    (2021 : Nat) < 10000 ∧ (8 : Nat) < 100 ∧ renderKey 2021 8 = "2021-08" ∧
    (silver_trending_cleaned (some (renderKey 2021 8))
        ([⟨"a", ⟨2021, 8, 1, 0, 0, 0⟩, none, Cell.null, Cell.null, Cell.null,
          Cell.null, Cell.null, none⟩] : List TrendingRowIn)
        ([⟨"b", ⟨2021, 9, 1, 0, 0, 0⟩, none, Cell.null, Cell.null, Cell.null,
          Cell.null, Cell.null, none⟩] : List TrendingRowIn) =
      Except.ok (((([⟨"a", ⟨2021, 8, 1, 0, 0, 0⟩, none, Cell.null, Cell.null,
          Cell.null, Cell.null, Cell.null, none⟩] : List TrendingRowIn) ++
        ([⟨"b", ⟨2021, 9, 1, 0, 0, 0⟩, none, Cell.null, Cell.null, Cell.null,
          Cell.null, Cell.null, none⟩] : List TrendingRowIn)).filter
            (keptRow (2021 : Int) (8 : Int))).map stepRow) ∧
    (∀ r : TrendingRowIn, r ∈
        (([⟨"a", ⟨2021, 8, 1, 0, 0, 0⟩, none, Cell.null, Cell.null, Cell.null,
          Cell.null, Cell.null, none⟩] : List TrendingRowIn) ++
         ([⟨"b", ⟨2021, 9, 1, 0, 0, 0⟩, none, Cell.null, Cell.null, Cell.null,
          Cell.null, Cell.null, none⟩] : List TrendingRowIn)).filter
            (keptRow (2021 : Int) (8 : Int)) ↔
      r ∈ (([⟨"a", ⟨2021, 8, 1, 0, 0, 0⟩, none, Cell.null, Cell.null, Cell.null,
          Cell.null, Cell.null, none⟩] : List TrendingRowIn) ++
         ([⟨"b", ⟨2021, 9, 1, 0, 0, 0⟩, none, Cell.null, Cell.null, Cell.null,
          Cell.null, Cell.null, none⟩] : List TrendingRowIn)) ∧
        r.publishedAt.year = 2021 ∧ r.publishedAt.month = 8) ∧
    (∀ row ∈ ((([⟨"a", ⟨2021, 8, 1, 0, 0, 0⟩, none, Cell.null, Cell.null,
          Cell.null, Cell.null, Cell.null, none⟩] : List TrendingRowIn) ++
        ([⟨"b", ⟨2021, 9, 1, 0, 0, 0⟩, none, Cell.null, Cell.null, Cell.null,
          Cell.null, Cell.null, none⟩] : List TrendingRowIn)).filter
            (keptRow (2021 : Int) (8 : Int))).map stepRow,
      row.publishedAt.year = 2021 ∧ row.publishedAt.month = 8)) :=
  ⟨by decide, by decide, by decide,
    c2_time_window_filter 2021 8 _ _ (by decide) (by decide)⟩

/-! ### Claim C7: partition-key failure handling -/

/-- Claim C7 (amended form): the Trending Normalizer fails, carrying the
original failure reason and producing no output, exactly when the partition
key is missing or Python `int()` rejects the `[:4]` or `[5:7]` slice. -/
theorem c7_partition_key_failure (key? : Option String) (t1 t2 : List TrendingRowIn) :
    (key? = none → silver_trending_cleaned key? t1 t2 = Except.error noKeyMsg) ∧
    (∀ key, key? = some key →
      (pyInt (key.toList.take 4) = none →
        silver_trending_cleaned key? t1 t2 =
          Except.error (intErrMsg (key.toList.take 4))) ∧
      (pyInt (key.toList.take 4) ≠ none →
        pyInt ((key.toList.drop 5).take 2) = none →
        silver_trending_cleaned key? t1 t2 =
          Except.error (intErrMsg ((key.toList.drop 5).take 2))) ∧
      ((∃ out, silver_trending_cleaned key? t1 t2 = Except.ok out) ↔
        pyInt (key.toList.take 4) ≠ none ∧
          pyInt ((key.toList.drop 5).take 2) ≠ none)) := by
  constructor
  · rintro rfl
    rfl
  · rintro key rfl
    by_cases hx : pyInt (key.toList.take 4) = none
    · have hstage : silver_trending_cleaned (some key) t1 t2 =
          Except.error (intErrMsg (key.toList.take 4)) := by
        rw [silver_trending_cleaned_some, hx]
      refine ⟨fun _ => hstage, fun h4 => absurd hx h4, ?_, ?_⟩
      · rintro ⟨out, hout⟩
        rw [hstage] at hout
        cases hout
      · rintro ⟨h4, _⟩
        exact absurd hx h4
    · obtain ⟨yv, hxv⟩ := Option.ne_none_iff_exists'.mp hx
      by_cases hx2 : pyInt ((key.toList.drop 5).take 2) = none
      · have hstage : silver_trending_cleaned (some key) t1 t2 =
            Except.error (intErrMsg ((key.toList.drop 5).take 2)) := by
          rw [silver_trending_cleaned_some, hxv, hx2]
        refine ⟨fun h4 => absurd h4 hx, fun _ _ => hstage, ?_, ?_⟩
        · rintro ⟨out, hout⟩
          rw [hstage] at hout
          cases hout
        · rintro ⟨_, h57⟩
          exact absurd hx2 h57
      · obtain ⟨mv, hx2v⟩ := Option.ne_none_iff_exists'.mp hx2
        have hstage : silver_trending_cleaned (some key) t1 t2 =
            Except.ok (((t1 ++ t2).filter (keptRow yv mv)).map stepRow) := by
          rw [silver_trending_cleaned_some, hxv, hx2v]
        exact ⟨fun h4 => absurd h4 hx, fun _ h57 => absurd h57 hx2,
          fun _ => ⟨hx, hx2⟩, fun _ => ⟨_, hstage⟩⟩

/-- Witness for C7: a key whose year slice fails to parse yields the
`int()` error, and a missing key yields the missing-key error. -/
theorem c7_partition_key_failure_witness :
    pyInt (("21-3-").toList.take 4) = none ∧
    silver_trending_cleaned (some "21-3-") [] [] =
      Except.error (intErrMsg (("21-3-").toList.take 4)) ∧
    silver_trending_cleaned none ([] : List TrendingRowIn) [] =
      Except.error noKeyMsg :=
  ⟨by decide,
    ((c7_partition_key_failure (some "21-3-") [] []).2 "21-3-" rfl).1 (by decide),
    (c7_partition_key_failure none [] []).1 rfl⟩

/-- Counterexample to C7 as stated: the key `"2021x08"` is not of the form
`YYYY-MM`, yet the stage succeeds and produces an output dataset, because
the code never inspects the separator character. -/
theorem c7_counterexample :
    isYearMonthKey "2021x08" = false ∧
    silver_trending_cleaned (some "2021x08") ([] : List TrendingRowIn) [] =
      Except.ok [] := by
  constructor
  · decide
  · decide

/-! ### Claim C3: independent per-column integer casts -/

lemma castInt_intOrNull (c : Cell) : (castInt c).intOrNull = true := by
  cases c with
  | null => rfl
  | int n => rfl
  | str s =>
    simp only [castInt]
    rcases sparkToInt s with _ | v <;> rfl

lemma silver_trending_cleaned_ok_shape (key? : Option String)
    (t1 t2 : List TrendingRowIn) (out : List TrendingRowOut)
    (h : silver_trending_cleaned key? t1 t2 = Except.ok out) :
    ∃ y m : Int, out = ((t1 ++ t2).filter (keptRow y m)).map stepRow := by
  cases key? with
  | none => cases h
  | some key =>
    rw [silver_trending_cleaned_some] at h
    rcases hx : pyInt (key.toList.take 4) with _ | yv
    · rw [hx] at h
      cases h
    · rw [hx] at h
      rcases hx2 : pyInt ((key.toList.drop 5).take 2) with _ | mv
      · rw [hx2] at h
        cases h
      · rw [hx2] at h
        injection h with h
        exact ⟨yv, mv, h.symm⟩

/-- Claim C3: in every output row of the Trending Normalizer the columns
`categoryId`, `view_count`, `likes`, `dislikes`, `comment_count` are
integers or null; a non-numeric string in one of these columns becomes null
in that column, and changing one of these columns changes nothing else in
the transformed row. -/
theorem c3_integer_casts (key? : Option String) (t1 t2 : List TrendingRowIn)
    (out : List TrendingRowOut)
    (h : silver_trending_cleaned key? t1 t2 = Except.ok out) :
    (∀ row ∈ out,
      row.categoryId.intOrNull = true ∧ row.view_count.intOrNull = true ∧
      row.likes.intOrNull = true ∧ row.dislikes.intOrNull = true ∧
      row.comment_count.intOrNull = true) ∧
    (∀ s : String, sparkToInt s = none → castInt (Cell.str s) = Cell.null) ∧
    (∀ (r : TrendingRowIn) (c : Cell),
      stepRow { r with categoryId := c } = { stepRow r with categoryId := castInt c } ∧
      stepRow { r with view_count := c } = { stepRow r with view_count := castInt c } ∧
      stepRow { r with likes := c } = { stepRow r with likes := castInt c } ∧
      stepRow { r with dislikes := c } = { stepRow r with dislikes := castInt c } ∧
      stepRow { r with comment_count := c } =
        { stepRow r with comment_count := castInt c }) := by
  refine ⟨?_, ?_, ?_⟩
  · rcases silver_trending_cleaned_ok_shape key? t1 t2 out h with ⟨y, m, rfl⟩
    intro row hrow
    rcases List.mem_map.mp hrow with ⟨r, _, rfl⟩
    exact ⟨castInt_intOrNull _, castInt_intOrNull _, castInt_intOrNull _,
      castInt_intOrNull _, castInt_intOrNull _⟩
  · intro s hs
    simp only [castInt]
    rw [hs]
  · intro r c
    exact ⟨rfl, rfl, rfl, rfl, rfl⟩

/-- Witness for C3: a run on a row holding the non-numeric string `"x"` and
the numeric string `"10"`; the output nulls the former and casts the
latter. -/
theorem c3_integer_casts_witness :
    (silver_trending_cleaned (some "2021-08")
      ([⟨"a", ⟨2021, 8, 1, 0, 0, 0⟩, none, Cell.str "10", Cell.str "x",
        Cell.int 3, Cell.null, Cell.str "7", none⟩] : List TrendingRowIn) [] =
      Except.ok [⟨"a", ⟨2021, 8, 1, 0, 0, 0⟩, none, Cell.int 10, Cell.null,
        Cell.int 3, Cell.null, Cell.int 7, none⟩]) ∧
    (∀ row ∈ ([⟨"a", ⟨2021, 8, 1, 0, 0, 0⟩, none, Cell.int 10, Cell.null,
        Cell.int 3, Cell.null, Cell.int 7, none⟩] : List TrendingRowOut),
      row.categoryId.intOrNull = true ∧ row.view_count.intOrNull = true ∧
      row.likes.intOrNull = true ∧ row.dislikes.intOrNull = true ∧
      row.comment_count.intOrNull = true) ∧
    (∀ s : String, sparkToInt s = none → castInt (Cell.str s) = Cell.null) ∧
    (∀ (r : TrendingRowIn) (c : Cell),
      stepRow { r with categoryId := c } = { stepRow r with categoryId := castInt c } ∧
      stepRow { r with view_count := c } = { stepRow r with view_count := castInt c } ∧
      stepRow { r with likes := c } = { stepRow r with likes := castInt c } ∧
      stepRow { r with dislikes := c } = { stepRow r with dislikes := castInt c } ∧
      stepRow { r with comment_count := c } =
        { stepRow r with comment_count := castInt c }) := by
  have h : silver_trending_cleaned (some "2021-08")
      ([⟨"a", ⟨2021, 8, 1, 0, 0, 0⟩, none, Cell.str "10", Cell.str "x",
        Cell.int 3, Cell.null, Cell.str "7", none⟩] : List TrendingRowIn) [] =
      Except.ok [⟨"a", ⟨2021, 8, 1, 0, 0, 0⟩, none, Cell.int 10, Cell.null,
        Cell.int 3, Cell.null, Cell.int 7, none⟩] := by decide
  have hc := c3_integer_casts (some "2021-08") _ [] _ h
  exact ⟨h, by decide, hc.2.1, hc.2.2⟩

/-! ### Claim C6: date reformatting and parsing -/

lemma isDigit_ne_special {c : Char} (h : c.isDigit = true) :
    c ≠ '-' ∧ c ≠ ' ' ∧ c ≠ ':' ∧ c ≠ 'T' ∧ c ≠ 'Z' := by
  refine ⟨?_, ?_, ?_, ?_, ?_⟩ <;> (rintro rfl; exact absurd h (by decide))

lemma takeWhile_ne_append (ch : Char) (A B : List Char)
    (hA : ∀ c ∈ A, (c != ch) = true) :
    (A ++ ch :: B).takeWhile (fun c => c != ch) = A := by
  induction A with
  | nil =>
    rw [List.nil_append, List.takeWhile_cons]
    simp
  | cons a A ih =>
    rw [List.cons_append, List.takeWhile_cons,
      if_pos (hA a (List.mem_cons_self a A))]
    rw [ih (fun c hc => hA c (List.mem_cons_of_mem a hc))]

lemma dropWhile_ne_append (ch : Char) (A B : List Char)
    (hA : ∀ c ∈ A, (c != ch) = true) :
    (A ++ ch :: B).dropWhile (fun c => c != ch) = ch :: B := by
  induction A with
  | nil =>
    rw [List.nil_append, List.dropWhile_cons]
    simp
  | cons a A ih =>
    rw [List.cons_append, List.dropWhile_cons,
      if_pos (hA a (List.mem_cons_self a A))]
    exact ih (fun c hc => hA c (List.mem_cons_of_mem a hc))

lemma breakAt_append (ch : Char) (A B : List Char)
    (hA : ∀ c ∈ A, (c != ch) = true) :
    breakAt ch (A ++ ch :: B) = (A, B) := by
  unfold breakAt
  rw [takeWhile_ne_append ch A B hA, dropWhile_ne_append ch A B hA]
  rfl

lemma pad_natChars_ne (w n : Nat) (ch : Char) (hch : ch.isDigit = false) :
    ∀ c ∈ pad w (natChars n), (c != ch) = true := by
  intro c hc
  rw [bne_iff_ne]
  rintro rfl
  rw [pad_all_digit w _ (natChars_all_digit n) c hc] at hch
  cases hch

lemma formatDateChars_append (A B : List Char) :
    formatDateChars (A ++ B) = formatDateChars A ++ formatDateChars B := by
  unfold formatDateChars
  rw [List.map_append, List.filter_append]

lemma formatDateChars_digits (l : List Char) (h : ∀ c ∈ l, c.isDigit = true) :
    formatDateChars l = l := by
  unfold formatDateChars
  have hmap : l.map trChar = l := by
    have : l.map trChar = l.map id := by
      apply List.map_congr_left
      intro c hc
      unfold trChar
      rw [if_neg (isDigit_ne_special (h c hc)).2.2.2.1]
      rfl
    rw [this, List.map_id]
  rw [hmap]
  apply List.filter_eq_self.mpr
  intro c hc
  rw [bne_iff_ne]
  exact (isDigit_ne_special (h c hc)).2.2.2.2

lemma formatDateChars_pad (w n : Nat) :
    formatDateChars (pad w (natChars n)) = pad w (natChars n) :=
  formatDateChars_digits _ (pad_all_digit w _ (natChars_all_digit n))

lemma formatDateChars_dash (B : List Char) :
    formatDateChars ('-' :: B) = '-' :: formatDateChars B := rfl

lemma formatDateChars_colon (B : List Char) :
    formatDateChars (':' :: B) = ':' :: formatDateChars B := rfl

lemma formatDateChars_T (B : List Char) :
    formatDateChars ('T' :: B) = ' ' :: formatDateChars B := rfl

lemma formatDateChars_Z : formatDateChars ['Z'] = [] := rfl

lemma formatDateChars_render (d : Date) :
    formatDateChars (renderRawChars d) =
      pad 4 (natChars d.year) ++ '-' :: (pad 2 (natChars d.month) ++
      '-' :: (pad 2 (natChars d.day) ++ ' ' :: (pad 2 (natChars d.hour) ++
      ':' :: (pad 2 (natChars d.minute) ++ ':' :: pad 2 (natChars d.second))))) := by
  unfold renderRawChars
  simp only [formatDateChars_append, formatDateChars_pad, formatDateChars_dash,
    formatDateChars_colon, formatDateChars_T, formatDateChars_Z,
    List.cons_append, List.append_assoc, List.append_nil]

lemma parseTimestampChars_canonical (d : Date) :
    parseTimestampChars (formatDateChars (renderRawChars d)) = some d := by
  rw [formatDateChars_render]
  unfold parseTimestampChars
  rw [breakAt_append '-' _ _ (pad_natChars_ne 4 d.year '-' (by decide))]
  dsimp only
  rw [breakAt_append '-' _ _ (pad_natChars_ne 2 d.month '-' (by decide))]
  dsimp only
  rw [breakAt_append ' ' _ _ (pad_natChars_ne 2 d.day ' ' (by decide))]
  dsimp only
  rw [breakAt_append ':' _ _ (pad_natChars_ne 2 d.hour ':' (by decide))]
  dsimp only
  rw [breakAt_append ':' _ _ (pad_natChars_ne 2 d.minute ':' (by decide))]
  dsimp only
  rw [parseNum_pad_natChars, parseNum_pad_natChars, parseNum_pad_natChars,
    parseNum_pad_natChars, parseNum_pad_natChars, parseNum_pad_natChars]

/-- The round trip at the level of strings. -/
lemma parseTimestamp_format_render (d : Date) :
    parseTimestamp (format_date (renderRawTimestamp d)) = some d := by
  unfold parseTimestamp format_date renderRawTimestamp
  rw [show (String.mk (formatDateChars (String.mk (renderRawChars d)).toList)).toList
      = formatDateChars (renderRawChars d) from rfl]
  exact parseTimestampChars_canonical d

/-- Claim C6: in every successful run of the Trending Normalizer,
`trending_date` of each output row is obtained by reformatting the raw
string through `format_date` and then parsing the canonical string to a
timestamp; `publishedAt` is carried over as a timestamp, and parsing the
reformatted raw representation of that timestamp yields exactly it, so both
date columns are timestamps parsed from the defined string format. -/
theorem c6_date_parsing (key? : Option String) (t1 t2 : List TrendingRowIn)
    (out : List TrendingRowOut)
    (h : silver_trending_cleaned key? t1 t2 = Except.ok out) :
    (∀ row ∈ out, ∃ r ∈ t1 ++ t2, row = stepRow r ∧
      row.publishedAt = r.publishedAt ∧
      row.trending_date = (r.trending_date.map format_date).bind parseTimestamp) ∧
    (∀ d : Date, parseTimestamp (format_date (renderRawTimestamp d)) = some d) := by
  refine ⟨?_, parseTimestamp_format_render⟩
  rcases silver_trending_cleaned_ok_shape key? t1 t2 out h with ⟨y, m, rfl⟩
  intro row hrow
  rcases List.mem_map.mp hrow with ⟨r, hr, rfl⟩
  exact ⟨r, (List.mem_filter.mp hr).1, rfl, rfl, rfl⟩

/-- Witness for C6: a run over one row whose raw `trending_date` is
`"2021-08-02T10:30:00Z"`; the output holds the parsed timestamp. -/
theorem c6_date_parsing_witness :
    (silver_trending_cleaned (some "2021-08")
      ([⟨"a", ⟨2021, 8, 1, 0, 0, 0⟩, some "2021-08-02T10:30:00Z", Cell.null,
        Cell.null, Cell.null, Cell.null, Cell.null, none⟩] : List TrendingRowIn) [] =
      Except.ok [⟨"a", ⟨2021, 8, 1, 0, 0, 0⟩, some ⟨2021, 8, 2, 10, 30, 0⟩,
        Cell.null, Cell.null, Cell.null, Cell.null, Cell.null, none⟩]) ∧
    (∀ row ∈ ([⟨"a", ⟨2021, 8, 1, 0, 0, 0⟩, some ⟨2021, 8, 2, 10, 30, 0⟩,
        Cell.null, Cell.null, Cell.null, Cell.null, Cell.null, none⟩] :
          List TrendingRowOut),
      ∃ r ∈ ([⟨"a", ⟨2021, 8, 1, 0, 0, 0⟩, some "2021-08-02T10:30:00Z", Cell.null,
        Cell.null, Cell.null, Cell.null, Cell.null, none⟩] : List TrendingRowIn) ++ [],
        row = stepRow r ∧ row.publishedAt = r.publishedAt ∧
        row.trending_date = (r.trending_date.map format_date).bind parseTimestamp) ∧
    parseTimestamp (format_date (renderRawTimestamp ⟨2021, 8, 2, 10, 30, 0⟩)) =
      some ⟨2021, 8, 2, 10, 30, 0⟩ := by
  have h : silver_trending_cleaned (some "2021-08")
      ([⟨"a", ⟨2021, 8, 1, 0, 0, 0⟩, some "2021-08-02T10:30:00Z", Cell.null,
        Cell.null, Cell.null, Cell.null, Cell.null, none⟩] : List TrendingRowIn) [] =
      Except.ok [⟨"a", ⟨2021, 8, 1, 0, 0, 0⟩, some ⟨2021, 8, 2, 10, 30, 0⟩,
        Cell.null, Cell.null, Cell.null, Cell.null, Cell.null, none⟩] := by decide
  have hc := c6_date_parsing (some "2021-08") _ [] _ h
  exact ⟨h, hc.1, hc.2 ⟨2021, 8, 2, 10, 30, 0⟩⟩

/-! ### Claim C5: thumbnail suffix rewriting -/

lemma isPrefixOf_append_self (l t : List Char) : l.isPrefixOf (l ++ t) = true := by
  rw [ List.isPrefixOf_iff_prefix]
  exact List.prefix_append l t

lemma hasSub_of_isPrefixOf (pat l : List Char) (hp : pat ≠ [])
    (h : pat.isPrefixOf l = true) : hasSub pat l = true := by
  cases l with
  | nil =>
    cases pat with
    | nil => exact absurd rfl hp
    | cons a as => cases h
  | cons c rest =>
    unfold hasSub
    rw [h, Bool.true_or]

lemma hasSub_cons_of_tail (pat : List Char) (c : Char) (rest : List Char)
    (h : hasSub pat rest = true) : hasSub pat (c :: rest) = true := by
  unfold hasSub
  rw [h, Bool.or_true]

lemma replaceAll_of_not_hasSub (pat repl : List Char) :
    ∀ (fuel : Nat) (l : List Char), l.length ≤ fuel →
      hasSub pat l = false → replaceAll pat repl fuel l = l := by
  intro fuel
  induction fuel with
  | zero =>
    intro l hlen _
    rfl
  | succ fuel ih =>
    intro l hlen h
    cases l with
    | nil => rfl
    | cons c rest =>
      unfold hasSub at h
      rcases Bool.or_eq_false_iff.mp h with ⟨h1, h2⟩
      simp only [replaceAll]
      rw [if_neg (by rw [h1]; exact Bool.false_ne_true)]
      rw [ih rest (by simp at hlen; omega) h2]

lemma replaceAll_hasSub_maxres :
    ∀ (fuel : Nat) (l : List Char), l.length ≤ fuel →
      hasSub defaultPat l = true →
      hasSub maxresPat (replaceAll defaultPat maxresPat fuel l) = true := by
  intro fuel
  induction fuel with
  | zero =>
    intro l hlen h
    have : l = [] := List.eq_nil_of_length_eq_zero (by omega)
    subst this
    exact absurd h (by decide)
  | succ fuel ih =>
    intro l hlen h
    cases l with
    | nil => exact absurd h (by decide)
    | cons c rest =>
      by_cases hpre : defaultPat.isPrefixOf (c :: rest) = true
      · simp only [replaceAll]
        rw [if_pos hpre]
        exact hasSub_of_isPrefixOf _ _ (by decide) (isPrefixOf_append_self _ _)
      · simp only [replaceAll]
        rw [if_neg hpre]
        unfold hasSub at h
        rw [Bool.or_eq_true] at h
        rcases h with h1 | h2
        · exact absurd h1 hpre
        · exact hasSub_cons_of_tail _ _ _
            (ih rest (by simp at hlen; omega) h2)

/-- Claim C5 (amended form): `replace_str` leaves a null thumbnail null and
a token-free thumbnail unchanged, and rewrites any thumbnail containing the
default-resolution token into one containing the max-resolution token; the
stage applies exactly this map to `thumbnail_link`.  (The original claim's
final clause fails because the max-resolution token contains the
default-resolution token as a substring.) -/
theorem c5_thumbnail_rewrite (t? : Option String) :
    (∀ r : TrendingRowIn, (stepRow r).thumbnail_link =
      r.thumbnail_link.map replace_str) ∧
    (t? = none → t?.map replace_str = none) ∧
    (∀ s : String, t? = some s → hasSub defaultPat s.toList = false →
      t?.map replace_str = some s) ∧
    (∀ s : String, t? = some s → hasSub defaultPat s.toList = true →
      ∃ u : String, t?.map replace_str = some u ∧
        hasSub maxresPat u.toList = true) := by
  refine ⟨fun _ => rfl, ?_, ?_, ?_⟩
  · rintro rfl
    rfl
  · rintro s rfl hs
    show some (replace_str s) = some s
    unfold replace_str replaceDefault
    rw [replaceAll_of_not_hasSub defaultPat maxresPat s.toList.length s.toList
      le_rfl hs]
    obtain ⟨sdata⟩ := s
    rfl
  · rintro s rfl hs
    refine ⟨replace_str s, rfl, ?_⟩
    show hasSub maxresPat (replaceDefault s.toList) = true
    exact replaceAll_hasSub_maxres s.toList.length s.toList le_rfl hs

/-- Witness for C5: a null thumbnail stays null, a token-free link is
unchanged, the spec's example link is rewritten. -/
theorem c5_thumbnail_rewrite_witness :
    (none : Option String).map replace_str = none ∧
    (some "http://a.jpg").map replace_str = some "http://a.jpg" ∧
    (∃ u : String, (some "http://img/default.jpg").map replace_str = some u ∧
      hasSub maxresPat u.toList = true) :=
  ⟨(c5_thumbnail_rewrite none).2.1 rfl,
    (c5_thumbnail_rewrite (some "http://a.jpg")).2.2.1 "http://a.jpg" rfl (by decide),
    (c5_thumbnail_rewrite (some "http://img/default.jpg")).2.2.2
      "http://img/default.jpg" rfl (by decide)⟩

/-- Counterexample to C5 as stated: the spec's own example input is
rewritten to `"http://img/maxresdefault.jpg"`, which still contains the
default-resolution token `default.jpg`, so the claim's final clause (no
output contains the token if the non-null input did) is false. -/
theorem c5_counterexample :
    (some "http://img/default.jpg").map replace_str =
      some "http://img/maxresdefault.jpg" ∧
    hasSub defaultPat ("http://img/default.jpg").toList = true ∧
    hasSub defaultPat ("http://img/maxresdefault.jpg").toList = true := by
  refine ⟨?_, ?_, ?_⟩ <;> decide

/-! ### Claims C9 and C10: deduplication and the unused second input -/

lemma mem_dedupByKeyAux {α : Type} (key : α → String) :
    ∀ (seen : List String) (l : List α) (y : α),
      y ∈ dedupByKeyAux key seen l → y ∈ l := by
  intro seen l
  induction l generalizing seen with
  | nil => intro y h; cases h
  | cons x rest ih =>
    intro y h
    unfold dedupByKeyAux at h
    by_cases hc : seen.contains (key x) = true
    · rw [if_pos hc] at h
      exact List.mem_cons_of_mem x (ih seen y h)
    · rw [if_neg hc] at h
      rcases List.mem_cons.mp h with rfl | h
      · exact List.mem_cons_self _ _
      · exact List.mem_cons_of_mem x (ih (key x :: seen) y h)

lemma dedupByKeyAux_not_seen {α : Type} (key : α → String) :
    ∀ (seen : List String) (l : List α) (y : α),
      y ∈ dedupByKeyAux key seen l → seen.contains (key y) = false := by
  intro seen l
  induction l generalizing seen with
  | nil => intro y h; cases h
  | cons x rest ih =>
    intro y h
    unfold dedupByKeyAux at h
    by_cases hc : seen.contains (key x) = true
    · rw [if_pos hc] at h
      exact ih seen y h
    · rw [if_neg hc] at h
      rcases List.mem_cons.mp h with rfl | h
      · exact Bool.not_eq_true _ ▸ hc
      · have := ih (key x :: seen) y h
        rw [List.contains_cons, Bool.or_eq_false_iff] at this
        exact this.2

lemma nodup_keys_dedupByKeyAux {α : Type} (key : α → String) :
    ∀ (seen : List String) (l : List α),
      ((dedupByKeyAux key seen l).map key).Nodup := by
  intro seen l
  induction l generalizing seen with
  | nil => exact List.nodup_nil
  | cons x rest ih =>
    unfold dedupByKeyAux
    by_cases hc : seen.contains (key x) = true
    · rw [if_pos hc]
      exact ih seen
    · rw [if_neg hc, List.map_cons, List.nodup_cons]
      refine ⟨?_, ih (key x :: seen)⟩
      intro hmem
      rcases List.mem_map.mp hmem with ⟨y, hy, hkey⟩
      have := dedupByKeyAux_not_seen key (key x :: seen) rest y hy
      rw [List.contains_cons, Bool.or_eq_false_iff, hkey] at this
      exact absurd this.1 (by simp)

lemma dedupByKeyAux_noop {α : Type} (key : α → String) :
    ∀ (seen : List String) (l : List α),
      (∀ y ∈ l, seen.contains (key y) = false) →
      ((l.map key).Nodup) → dedupByKeyAux key seen l = l := by
  intro seen l
  induction l generalizing seen with
  | nil => intro _ _; rfl
  | cons x rest ih =>
    intro hseen hnodup
    unfold dedupByKeyAux
    rw [if_neg (by rw [hseen x (List.mem_cons_self _ _)]; exact Bool.false_ne_true)]
    rw [List.map_cons, List.nodup_cons] at hnodup
    rw [ih (key x :: seen) ?_ hnodup.2]
    intro y hy
    rw [List.contains_cons, Bool.or_eq_false_iff]
    refine ⟨?_, hseen y (List.mem_cons_of_mem x hy)⟩
    rw [beq_eq_false_iff_ne]
    intro hkey
    exact hnodup.1 (List.mem_map.mpr ⟨y, hy, hkey⟩)

lemma dedupByKey_idempotent {α : Type} (key : α → String) (l : List α) :
    dedupByKey key (dedupByKey key l) = dedupByKey key l := by
  unfold dedupByKey
  exact dedupByKeyAux_noop key [] _ (fun y _ => rfl)
    (nodup_keys_dedupByKeyAux key [] l)

/-- Claim C9: the `dropDuplicates(["video_id"])` step of the Link Reconciler
is idempotent: deduplicating an already-deduplicated trending dataset by
`video_id` yields the same dataset. -/
theorem c9_dedup_idempotent (t : List TrendingRowIn) :
    dedupByKey TrendingRowIn.video_id (dedupByKey TrendingRowIn.video_id t) =
      dedupByKey TrendingRowIn.video_id t :=
  dedupByKey_idempotent TrendingRowIn.video_id t

/-- Claim C10: the Link Reconciler's output does not depend on its second
trending input (`silver_youtube_trending_02`): only the link-mapping
dataset and the first trending dataset influence the result. -/
theorem c10_second_trending_ignored (ls : List LinkRow)
    (t1 t2 t2' : List TrendingRowIn) :
    silver_linkVideos_cleaned ls t1 t2 = silver_linkVideos_cleaned ls t1 t2' := rfl

/-! ### Claim C4: category cast and stable sort -/

lemma filter_orderedInsert_key_eq (v : WithBot Int) (x : CategoryRow)
    (hx : catKey x = v) (l : List CategoryRow) :
    (l.orderedInsert catLe x).filter (fun r => decide (catKey r = v)) =
      x :: l.filter (fun r => decide (catKey r = v)) := by
  induction l with
  | nil => simp [hx]
  | cons y l ih =>
    rw [List.orderedInsert]
    by_cases hle : catLe x y
    · rw [if_pos hle, List.filter_cons, if_pos (by simp [hx])]
    · rw [if_neg hle]
      have hlt : catKey y < catKey x := not_le.mp hle
      have hy : catKey y ≠ v := by
        rw [← hx]
        exact ne_of_lt hlt
      rw [List.filter_cons, if_neg (by simp [hy]), List.filter_cons,
        if_neg (by simp [hy]), ih]

lemma filter_orderedInsert_key_ne (v : WithBot Int) (x : CategoryRow)
    (hx : catKey x ≠ v) (l : List CategoryRow) :
    (l.orderedInsert catLe x).filter (fun r => decide (catKey r = v)) =
      l.filter (fun r => decide (catKey r = v)) := by
  induction l with
  | nil => simp [hx]
  | cons y l ih =>
    rw [List.orderedInsert]
    by_cases hle : catLe x y
    · rw [if_pos hle, List.filter_cons, if_neg (by simp [hx])]
    · rw [if_neg hle, List.filter_cons, List.filter_cons]
      by_cases hy : catKey y = v
      · rw [if_pos (by simp [hy]), if_pos (by simp [hy]), ih]
      · rw [if_neg (by simp [hy]), if_neg (by simp [hy]), ih]

lemma insertionSort_filter_key (v : WithBot Int) (l : List CategoryRow) :
    (l.insertionSort catLe).filter (fun r => decide (catKey r = v)) =
      l.filter (fun r => decide (catKey r = v)) := by
  induction l with
  | nil => rfl
  | cons x l ih =>
    rw [List.insertionSort]
    by_cases hx : catKey x = v
    · rw [filter_orderedInsert_key_eq v x hx, ih, List.filter_cons,
        if_pos (by simp [hx])]
    · rw [filter_orderedInsert_key_ne v x hx, ih, List.filter_cons,
        if_neg (by simp [hx])]

/-- Claim C4: the Category Normalizer returns (never errors) the input rows
with `categoryId` coerced to integer, as a permutation sorted
non-decreasingly by `categoryId`, and the sort is stable: for every key
value, the rows with that key keep their original relative order. -/
theorem c4_category_sort (rows : List CategoryRow) :
    ∃ out : List CategoryRow,
      silver_videoCategory_cleaned rows = Except.ok out ∧
      out.Perm (rows.map castCategoryRow) ∧
      List.Sorted catLe out ∧
      (∀ row ∈ out, row.categoryId.intOrNull = true) ∧
      (∀ v : WithBot Int, out.filter (fun r => decide (catKey r = v)) =
        (rows.map castCategoryRow).filter (fun r => decide (catKey r = v))) := by
  refine ⟨(rows.map castCategoryRow).insertionSort catLe, rfl,
    List.perm_insertionSort catLe _, List.sorted_insertionSort catLe _, ?_, ?_⟩
  · intro row hrow
    rw [List.mem_insertionSort] at hrow
    rcases List.mem_map.mp hrow with ⟨r, _, rfl⟩
    exact castInt_intOrNull r.categoryId
  · intro v
    exact insertionSort_filter_key v _

/-! ### Claim C8: empty coercion result -/

/-- Claim C8 (amended form): when no row's `categoryId` coerces to an
integer, the Category Normalizer does NOT report an error: it returns the
rows in their original order with `categoryId` null everywhere. -/
theorem c8_all_uncoercible_returns_rows (rows : List CategoryRow)
    (h : ∀ r ∈ rows, castInt r.categoryId = Cell.null) :
    silver_videoCategory_cleaned rows = Except.ok (rows.map castCategoryRow) ∧
    ∀ row ∈ rows.map castCategoryRow, row.categoryId = Cell.null := by
  constructor
  · unfold silver_videoCategory_cleaned
    congr 1
    apply List.Sorted.insertionSort_eq
    apply List.pairwise_of_forall_mem_list
    intro a ha b _
    rcases List.mem_map.mp ha with ⟨r, hr, rfl⟩
    show catKey (castCategoryRow r) ≤ catKey b
    have : catKey (castCategoryRow r) = ⊥ := by
      unfold catKey castCategoryRow
      rw [h r hr]
    rw [this]
    exact bot_le
  · intro row hrow
    rcases List.mem_map.mp hrow with ⟨r, hr, rfl⟩
    exact h r hr

/-- Witness for C8's amended theorem: a single-row dataset whose
`categoryId` is the non-numeric string `"abc"`. -/
theorem c8_all_uncoercible_returns_rows_witness :
    (∀ r ∈ ([⟨Cell.str "abc", []⟩] : List CategoryRow),
      castInt r.categoryId = Cell.null) ∧
    silver_videoCategory_cleaned ([⟨Cell.str "abc", []⟩] : List CategoryRow) =
      Except.ok (([⟨Cell.str "abc", []⟩] : List CategoryRow).map castCategoryRow) ∧
    ∀ row ∈ ([⟨Cell.str "abc", []⟩] : List CategoryRow).map castCategoryRow,
      row.categoryId = Cell.null :=
  ⟨by decide, (c8_all_uncoercible_returns_rows _ (by decide)).1,
    (c8_all_uncoercible_returns_rows _ (by decide)).2⟩

/-- Counterexample to C8 as stated: on a dataset where no `categoryId` is
coercible, the stage returns an output dataset (it is `ok`, not an
error). -/
theorem c8_counterexample :
    castInt (Cell.str "abc") = Cell.null ∧
    silver_videoCategory_cleaned ([⟨Cell.str "abc", []⟩] : List CategoryRow) =
      Except.ok [⟨Cell.null, []⟩] ∧
    (silver_videoCategory_cleaned ([⟨Cell.str "abc", []⟩] : List CategoryRow)).isOk
      = true := by
  refine ⟨by decide, by decide, by decide⟩

/-! ### Claim C1: the Link Reconciler's outer join -/

lemma map_filter_comp {α β : Type} (f : α → β) (p : β → Bool) (l : List α) :
    (l.filter (fun a => p (f a))).map f = (l.map f).filter p := by
  induction l with
  | nil => rfl
  | cons x l ih =>
    by_cases h : p (f x) = true <;> simp [List.filter_cons, h, ih]

lemma eq_of_nodup_keys {α : Type} (k : α → String) :
    ∀ l : List α, ((l.map k).Nodup) →
      ∀ a ∈ l, ∀ b ∈ l, k a = k b → a = b := by
  intro l
  induction l with
  | nil =>
    intro _ a ha
    cases ha
  | cons x rest ih =>
    intro hn a ha b hb hk
    rw [List.map_cons, List.nodup_cons] at hn
    rcases List.mem_cons.mp ha with rfl | ha2
    · rcases List.mem_cons.mp hb with rfl | hb2
      · rfl
      · exact absurd (List.mem_map.mpr ⟨b, hb2, hk.symm⟩) hn.1
    · rcases List.mem_cons.mp hb with rfl | hb2
      · exact absurd (List.mem_map.mpr ⟨a, ha2, hk⟩) hn.1
      · exact ih hn.2 a ha2 b hb2 hk

lemma filter_key_length (v : String) :
    ∀ ts : List TrendingRowIn, ((ts.map TrendingRowIn.video_id).Nodup) →
      (ts.filter (fun t => t.video_id == v)).length =
        if v ∈ ts.map TrendingRowIn.video_id then 1 else 0 := by
  intro ts
  induction ts with
  | nil =>
    intro _
    simp
  | cons t ts ih =>
    intro hn
    rw [List.map_cons, List.nodup_cons] at hn
    rw [List.filter_cons]
    by_cases h : (t.video_id == v) = true
    · have hv : t.video_id = v := eq_of_beq h
      rw [if_pos h, List.length_cons, ih hn.2,
        if_neg (by rw [← hv]; exact hn.1),
        if_pos (by rw [List.map_cons, ← hv]; exact List.mem_cons_self _ _)]
    · have hv : t.video_id ≠ v := by
        intro he
        exact h (by rw [he]; exact beq_self_eq_true v)
      rw [if_neg h, ih hn.2, List.map_cons]
      by_cases hm : v ∈ ts.map TrendingRowIn.video_id
      · rw [if_pos hm, if_pos (List.mem_cons_of_mem _ hm)]
      · rw [if_neg hm, if_neg ?_]
        intro hc
        rcases List.mem_cons.mp hc with he | hmem
        · exact hv he.symm
        · exact hm hmem

lemma outerJoinSelect_left_length (D : List TrendingRowIn)
    (hD : ((D.map TrendingRowIn.video_id).Nodup)) :
    ∀ ls : List LinkRow,
      (ls.flatMap (fun l =>
        let ms := D.filter (fun t => t.video_id == l.videoId)
        if ms.isEmpty then ([⟨none, l.link_video⟩] : List LinkOutRow)
        else ms.map (fun t => ⟨some t.video_id, l.link_video⟩))).length =
      ls.length := by
  intro ls
  induction ls with
  | nil => rfl
  | cons l ls ih =>
    rw [List.flatMap_cons, List.length_append, ih, List.length_cons]
    dsimp only
    by_cases hemp : (D.filter (fun t => t.video_id == l.videoId)).isEmpty = true
    · rw [if_pos hemp, List.length_singleton]
      omega
    · rw [if_neg hemp, List.length_map, filter_key_length l.videoId D hD, if_pos ?_]
      · omega
      · rcases List.exists_mem_of_ne_nil _
          (List.isEmpty_eq_false.mp (Bool.not_eq_true _ ▸ hemp)) with ⟨t, ht⟩
        rcases List.mem_filter.mp ht with ⟨htD, hbeq⟩
        exact List.mem_map.mpr ⟨t, htD, eq_of_beq hbeq⟩

lemma outerJoinSelect_length (ls : List LinkRow) (D : List TrendingRowIn)
    (hD : ((D.map TrendingRowIn.video_id).Nodup)) :
    (outerJoinSelect ls D).length =
      ls.length +
        (D.filter (fun t => ls.all (fun l => l.videoId != t.video_id))).length := by
  unfold outerJoinSelect
  rw [List.length_append, List.length_map, outerJoinSelect_left_length D hD ls]

lemma distinct_ids_card (ls : List LinkRow) (D : List TrendingRowIn)
    (hls : ((ls.map LinkRow.videoId).Nodup))
    (hD : ((D.map TrendingRowIn.video_id).Nodup)) :
    ((ls.map LinkRow.videoId) ++ (D.map TrendingRowIn.video_id)).toFinset.card =
      ls.length +
        (D.filter (fun t => ls.all (fun l => l.videoId != t.video_id))).length := by
  rw [List.toFinset_append]
  have h1 : ((D.map TrendingRowIn.video_id).toFinset \
        (ls.map LinkRow.videoId).toFinset).card +
      (ls.map LinkRow.videoId).toFinset.card =
      ((ls.map LinkRow.videoId).toFinset ∪
        (D.map TrendingRowIn.video_id).toFinset).card := by
    rw [Finset.card_sdiff_add_card, Finset.union_comm]
  rw [← h1, List.toFinset_card_of_nodup hls, List.length_map, Nat.add_comm]
  have hnf : ((D.filter (fun t =>
      ls.all (fun l => l.videoId != t.video_id))).map TrendingRowIn.video_id).Nodup :=
    List.Nodup.sublist (List.Sublist.map _ (List.filter_sublist _)) hD
  have hset : ((D.filter (fun t =>
        ls.all (fun l => l.videoId != t.video_id))).map TrendingRowIn.video_id).toFinset =
      (D.map TrendingRowIn.video_id).toFinset \ (ls.map LinkRow.videoId).toFinset := by
    apply Finset.ext
    intro v
    rw [List.mem_toFinset, Finset.mem_sdiff, List.mem_toFinset, List.mem_toFinset]
    constructor
    · intro hv
      rcases List.mem_map.mp hv with ⟨t, ht, rfl⟩
      rcases List.mem_filter.mp ht with ⟨htD, hall⟩
      refine ⟨List.mem_map.mpr ⟨t, htD, rfl⟩, ?_⟩
      intro hmem
      rcases List.mem_map.mp hmem with ⟨l, hl, hleq⟩
      have := List.all_eq_true.mp hall l hl
      rw [bne_iff_ne] at this
      exact this hleq
    · rintro ⟨hv, hnotin⟩
      rcases List.mem_map.mp hv with ⟨t, ht, rfl⟩
      refine List.mem_map.mpr ⟨t, List.mem_filter.mpr ⟨ht, ?_⟩, rfl⟩
      rw [List.all_eq_true]
      intro l hl
      rw [bne_iff_ne]
      intro he
      exact hnotin (List.mem_map.mpr ⟨l, hl, he⟩)
  congr 1
  rw [← List.length_map (D.filter (fun t =>
      ls.all (fun l => l.videoId != t.video_id))) TrendingRowIn.video_id,
    ← List.toFinset_card_of_nodup hnf, hset]

/-- Claim C1 (amended form): provided the link-mapping side has no
duplicate `videoId`, the reconciler's output has exactly one row per
distinct id of either side (cardinality), ids only in the deduplicated
trending side appear with a null `link_video`, and ids in both sides carry
the link-mapping side's `link_video`.  (With duplicate `videoId` rows on
the link-mapping side the cardinality clause fails.) -/
theorem c1_link_reconciler (ls : List LinkRow) (t1 t2 : List TrendingRowIn)
    (hls : ((ls.map LinkRow.videoId).Nodup)) :
    (silver_linkVideos_cleaned ls t1 t2).length =
      ((ls.map LinkRow.videoId) ++
        ((dedupByKey TrendingRowIn.video_id t1).map TrendingRowIn.video_id)).toFinset.card ∧
    (∀ t ∈ dedupByKey TrendingRowIn.video_id t1,
      (∀ l ∈ ls, l.videoId ≠ t.video_id) →
        ((⟨some t.video_id, none⟩ : LinkOutRow) ∈ silver_linkVideos_cleaned ls t1 t2 ∧
          ∀ row ∈ silver_linkVideos_cleaned ls t1 t2,
            row.video_id = some t.video_id → row.link_video = none)) ∧
    (∀ l ∈ ls, ∀ t ∈ dedupByKey TrendingRowIn.video_id t1,
      l.videoId = t.video_id →
        ((⟨some t.video_id, l.link_video⟩ : LinkOutRow) ∈
            silver_linkVideos_cleaned ls t1 t2 ∧
          ∀ row ∈ silver_linkVideos_cleaned ls t1 t2,
            row.video_id = some t.video_id → row.link_video = l.link_video)) := by
  have hD : (((dedupByKey TrendingRowIn.video_id t1).map TrendingRowIn.video_id).Nodup) :=
    nodup_keys_dedupByKeyAux TrendingRowIn.video_id [] t1
  refine ⟨?_, ?_, ?_⟩
  · rw [show silver_linkVideos_cleaned ls t1 t2 =
        outerJoinSelect ls (dedupByKey TrendingRowIn.video_id t1) from rfl,
      outerJoinSelect_length ls _ hD, distinct_ids_card ls _ hls hD]
  · intro t htD hnot
    constructor
    · apply List.mem_append.mpr
      right
      refine List.mem_map.mpr ⟨t, List.mem_filter.mpr ⟨htD, ?_⟩, rfl⟩
      rw [List.all_eq_true]
      intro l hl
      rw [bne_iff_ne]
      exact hnot l hl
    · intro row hrow hid
      rcases List.mem_append.mp hrow with hleft | hright
      · rcases List.mem_flatMap.mp hleft with ⟨l, hl, hrowl⟩
        dsimp only at hrowl
        by_cases hemp : ((dedupByKey TrendingRowIn.video_id t1).filter
            (fun u => u.video_id == l.videoId)).isEmpty = true
        · rw [if_pos hemp] at hrowl
          rcases List.mem_singleton.mp hrowl with rfl
          cases hid
        · rw [if_neg hemp] at hrowl
          rcases List.mem_map.mp hrowl with ⟨u, hu, rfl⟩
          rcases List.mem_filter.mp hu with ⟨_, hbeq⟩
          have hu_eq : u.video_id = l.videoId := eq_of_beq hbeq
          have : u.video_id = t.video_id := Option.some_injective _ hid
          exact absurd (by rw [← hu_eq, this]) (Ne.symm (hnot l hl))
      · rcases List.mem_map.mp hright with ⟨u, _, rfl⟩
        rfl
  · intro l hl t htD hkey
    have htm : t ∈ (dedupByKey TrendingRowIn.video_id t1).filter
        (fun u => u.video_id == l.videoId) :=
      List.mem_filter.mpr ⟨htD, by rw [← hkey]; exact beq_self_eq_true _⟩
    constructor
    · apply List.mem_append.mpr
      left
      apply List.mem_flatMap.mpr
      refine ⟨l, hl, ?_⟩
      dsimp only
      rw [if_neg (fun hc =>
        absurd (List.isEmpty_iff.mp hc ▸ htm) (List.not_mem_nil t))]
      exact List.mem_map.mpr ⟨t, htm, rfl⟩
    · intro row hrow hid
      rcases List.mem_append.mp hrow with hleft | hright
      · rcases List.mem_flatMap.mp hleft with ⟨l2, hl2, hrowl⟩
        dsimp only at hrowl
        by_cases hemp : ((dedupByKey TrendingRowIn.video_id t1).filter
            (fun u => u.video_id == l2.videoId)).isEmpty = true
        · rw [if_pos hemp] at hrowl
          rcases List.mem_singleton.mp hrowl with rfl
          cases hid
        · rw [if_neg hemp] at hrowl
          rcases List.mem_map.mp hrowl with ⟨u, hu, rfl⟩
          rcases List.mem_filter.mp hu with ⟨_, hbeq⟩
          have hu_eq : u.video_id = l2.videoId := eq_of_beq hbeq
          have hut : u.video_id = t.video_id := Option.some_injective _ hid
          have : l2 = l := by
            apply eq_of_nodup_keys LinkRow.videoId ls hls l2 hl2 l hl
            rw [← hu_eq, hut, ← hkey]
          rw [this]
      · rcases List.mem_map.mp hright with ⟨u, hu, rfl⟩
        rcases List.mem_filter.mp hu with ⟨_, hall⟩
        have hut : u.video_id = t.video_id := Option.some_injective _ hid
        have := List.all_eq_true.mp hall l hl
        rw [bne_iff_ne] at this
        exact absurd (by rw [hkey, ← hut]) this

/-- Counterexample to C1 as stated: with duplicate `videoId` rows on the
link-mapping side the output has more rows than distinct ids. -/
theorem c1_counterexample :
    (silver_linkVideos_cleaned
        ([⟨"a", some "L1"⟩, ⟨"a", some "L2"⟩] : List LinkRow) [] []).length ≠
      ((([⟨"a", some "L1"⟩, ⟨"a", some "L2"⟩] : List LinkRow).map LinkRow.videoId) ++
        ((dedupByKey TrendingRowIn.video_id
          ([] : List TrendingRowIn)).map TrendingRowIn.video_id)).toFinset.card := by
  decide

/-- Witness for C1 at a one-row link mapping and a two-row trending set. -/
theorem c1_link_reconciler_witness :
    ((([⟨"a", some "L1"⟩] : List LinkRow).map LinkRow.videoId).Nodup) ∧
    ((silver_linkVideos_cleaned ([⟨"a", some "L1"⟩] : List LinkRow)
        ([⟨"a", ⟨2021, 8, 1, 0, 0, 0⟩, none, Cell.null, Cell.null, Cell.null,
            Cell.null, Cell.null, none⟩,
          ⟨"b", ⟨2021, 8, 1, 0, 0, 0⟩, none, Cell.null, Cell.null, Cell.null,
            Cell.null, Cell.null, none⟩] : List TrendingRowIn) []).length =
      ((([⟨"a", some "L1"⟩] : List LinkRow).map LinkRow.videoId) ++
        ((dedupByKey TrendingRowIn.video_id
          ([⟨"a", ⟨2021, 8, 1, 0, 0, 0⟩, none, Cell.null, Cell.null, Cell.null,
              Cell.null, Cell.null, none⟩,
            ⟨"b", ⟨2021, 8, 1, 0, 0, 0⟩, none, Cell.null, Cell.null, Cell.null,
              Cell.null, Cell.null, none⟩] :
            List TrendingRowIn)).map TrendingRowIn.video_id)).toFinset.card) := by
  constructor
  · decide
  · exact (c1_link_reconciler _ _ [] (by decide)).1

end ETL
